import Mathlib

/-!
# Verification of the comment ingestion / streaming pipeline

A shallow embedding of the core of the Humanoid-Sentiment-Analysis
repository (src/fetch_comments.py, src/process_comments.py,
src/sentiment_analysis.py) together with proofs about it.

Modelling conventions:
* Timestamps (`published_at`, `updated_at`, ISO-8601 strings in the source,
  totally ordered lexicographically = chronologically) are modelled as `Nat`.
* The remote comment API is modelled as the list of page responses the
  paging loop would receive in request order; each page either returns
  items together with the presence/absence of a next-page token, or raises
  an HTTP error (403 or other).
* Kafka publication is modelled by recording the comments handed to
  `send_to_kafka`; DuckDB statements are modelled by explicit state passing
  over a list of rows plus an event trace for commits.
* Float sentiment scores are modelled by an opaque integer payload: no
  claim depends on float arithmetic, only on nullability and identity.
-/

namespace HumanoidSA

/-- A comment record as built by `fetch_video_comments` (one dict per
`commentThreads` item).  `category` may be `None`; `text` may be missing
from a decoded Kafka payload, hence `Option`. -/
structure Comment where
  comment_id : String
  video_id : String
  category : Option String
  author : String
  text : Option String
  like_count : Nat
  reply_count : Nat
  published_at : Nat
  updated_at : Nat
deriving DecidableEq, Repr

/-! ## Paginated fetcher (`src/fetch_comments.py`, `fetch_video_comments`) -/

/-- One response of the remote `commentThreads.list` call: either items plus
whether a `nextPageToken` was reported, or an `HttpError` (403 vs other). -/
inductive PageResult where
  | ok (items : List Comment) (hasNext : Bool)
  | err403
  | errOther
deriving DecidableEq, Repr

/-- Why the paging loop stopped. -/
inductive StopReason where
  | noMorePages
  | earlyStop
  | http403
  | httpOther
  | exhausted
deriving DecidableEq, Repr

/-- Result of the paging loop: accumulated `new_comments`, the comments
handed to `send_to_kafka`, how many pages were consumed, and why the loop
stopped. -/
structure LoopOut where
  newComments : List Comment
  published : List Comment
  pagesConsumed : Nat
  stop : StopReason
deriving DecidableEq, Repr

/-- The per-page dedup filter: items whose `comment_id` is in
`existing_ids` are skipped (`continue`), the rest form `page_comments`. -/
def pageNew (existing : List String) (items : List Comment) : List Comment :=
  items.filter (fun c => !(decide (c.comment_id ∈ existing)))

/-- The `while True` paging loop of `fetch_video_comments`: walk the page
responses, filter duplicates, publish new items, maintain the
`consecutive_empty_pages` counter (`MAX_EMPTY_PAGES = 3`, only in
incremental mode), stop on missing next-page token or `HttpError`.
The cooperative shutdown flag is modelled as never set. -/
def fetchLoop (existing : List String) (incr : Bool) :
    List PageResult → Nat → LoopOut
  | [], _ => ⟨[], [], 0, .exhausted⟩
  | .err403 :: _, _ => ⟨[], [], 1, .http403⟩
  | .errOther :: _, _ => ⟨[], [], 1, .httpOther⟩
  | .ok items hasNext :: rest, consec =>
    let pn := pageNew existing items
    if incr && pn.isEmpty && 3 ≤ consec + 1 then
      ⟨pn, pn, 1, .earlyStop⟩
    else if !hasNext then
      ⟨pn, pn, 1, .noMorePages⟩
    else
      let out := fetchLoop existing incr rest
        (if incr then (if pn.isEmpty then consec + 1 else 0) else consec)
      ⟨pn ++ out.newComments, pn ++ out.published, out.pagesConsumed + 1, out.stop⟩

/-- Outcome of the initial `videos().list` metadata call. -/
inductive MetaResult where
  | found
  | notFound
  | raised (msg : String)
deriving DecidableEq, Repr

/-- The remote side of one video's fetch. -/
structure VideoApi where
  meta : MetaResult
  pages : List PageResult
deriving Repr

/-- The returned dict of `fetch_video_comments`, restricted to the fields
the claims mention: the `success` tag, and on success the `new_comments`
list (with `total_fetched = new_comments.length`). -/
inductive FetchOutcome where
  | failure (error : String)
  | success (newComments : List Comment) (totalFetched : Nat)
deriving DecidableEq, Repr

/-- `fetch_video_comments`: metadata lookup, then the paging loop.
`is_incremental = len(existing_ids) > 0`.  Any `HttpError` inside the loop
only `break`s; the function still returns `success: True`.  The second
component is the list of comments published to Kafka. -/
def fetch_video_comments (api : VideoApi) (existing : List String) :
    FetchOutcome × List Comment :=
  match api.meta with
  | .raised msg => (.failure msg, [])
  | .notFound => (.failure "Video not found", [])
  | .found =>
    let out := fetchLoop existing (!existing.isEmpty) api.pages 0
    (.success out.newComments out.newComments.length, out.published)

/-- The per-video part of `main`: every configured video is fetched with
its own existing-ID set; outcomes are collected independently (a failed
video is only logged, the loop continues). -/
def runVideos (videos : List (VideoApi × List String)) : List FetchOutcome :=
  videos.map (fun v => (fetch_video_comments v.1 v.2).1)

/-! ## Snapshot persistence (`src/fetch_comments.py`, `save_comments`) -/

/-- State of the per-video snapshot file when `save_comments` runs:
absent, readable with the stored comment list, or present but failing to
read/parse (the `except` branch of the merge). -/
inductive SnapState where
  | absent
  | good (comments : List Comment)
  | bad
deriving Repr

/-- A filesystem operation performed by the persistence code.  `replace`
(an atomic rename over the destination) is the vocabulary needed to state
whether a temp-file-then-replace protocol is used. -/
inductive FsOp where
  | write (path : String) (content : List Comment)
  | replace (src dst : String)
deriving DecidableEq, Repr

/-- `self.data_dir / f"{video_id}.json"` with the default data dir. -/
def snapshotFile (video_id : String) : String :=
  "data/raw/" ++ video_id ++ ".json"

/-- Sorting key order: ascending `published_at` (Python `sorted` with
`key=lambda x: x['published_at']`). -/
def pubLe (a b : Comment) : Prop := a.published_at ≤ b.published_at

instance : DecidableRel pubLe := fun a b => Nat.decLe a.published_at b.published_at

instance : IsTotal Comment pubLe := ⟨fun a b => Nat.le_total a.published_at b.published_at⟩

instance : IsTrans Comment pubLe := ⟨fun _ _ _ => Nat.le_trans⟩

/-- Python's `sorted` (a stable sort) modelled by the stable
`List.insertionSort`. -/
def sortByPub (l : List Comment) : List Comment := List.insertionSort pubLe l

/-- One step of the dict comprehension
`{c['comment_id']: c for c in all_comments}`: a repeated key keeps its
first position but takes the latest value; a fresh key is appended. -/
def dictInsert (acc : List Comment) (c : Comment) : List Comment :=
  if acc.any (fun d => decide (d.comment_id = c.comment_id)) then
    acc.map (fun d => if d.comment_id = c.comment_id then c else d)
  else acc ++ [c]

/-- `list({c['comment_id']: c for c in l}.values())`. -/
def dedupeByIdKeepLast (l : List Comment) : List Comment := l.foldl dictInsert []

/-- `save_comments(result, merge_with_existing)`: on a successful fetch
result, compute `final_comments` (merge+dedupe+sort when the file exists
and reads fine; the raw `new_comments` when reading raises; a plain sort
otherwise) and write the output JSON.  Returns the filesystem-operation
trace and the persisted comment sequence. -/
def save_comments (success : Bool) (video_id : String) (snap : SnapState)
    (new_comments : List Comment) (merge_with_existing : Bool) :
    List FsOp × List Comment :=
  if !success then ([], [])
  else
    let final :=
      match snap, merge_with_existing with
      | .good existing, true => sortByPub (dedupeByIdKeepLast (existing ++ new_comments))
      | .bad, true => new_comments
      | _, _ => sortByPub new_comments
    ([FsOp.write (snapshotFile video_id) final], final)

/-! ## Text cleaning (`src/process_comments.py`, `clean_text`) -/

/-- ASCII whitespace as recognised by Python's `str.split()` /
`str.strip()` (the Unicode extension is not modelled; no claim depends on
it). -/
def isSpaceChar (c : Char) : Bool :=
  c = ' ' || c = '\t' || c = '\n' || c = '\r' || c = '\x0b' || c = '\x0c'

/-- Accumulator worker for `str.split()`: maximal runs of non-whitespace
characters, in order, dropping empty runs. -/
def splitWsAux : List Char → List Char → List (List Char)
  | [], acc => if acc.isEmpty then [] else [acc.reverse]
  | c :: rest, acc =>
    if isSpaceChar c then
      if acc.isEmpty then splitWsAux rest []
      else acc.reverse :: splitWsAux rest []
    else splitWsAux rest (c :: acc)

/-- Python `text.split()` (no separator argument). -/
def splitWs (l : List Char) : List (List Char) := splitWsAux l []

/-- Python `text.strip()`. -/
def pyStrip (l : List Char) : List Char :=
  ((l.dropWhile isSpaceChar).reverse.dropWhile isSpaceChar).reverse

/-- `clean_text`: empty/falsy input maps to `""`; otherwise strip, split
and re-join with single spaces. -/
def clean_text (s : String) : String :=
  if s = "" then ""
  else String.mk (List.intercalate [' '] (splitWs (pyStrip s.data)))

/-! ## Analytical store (`src/process_comments.py`) -/

/-- Column list of the `comments` table exactly as created by
`init_duckdb` (note: there is no `phrases` column). -/
def init_duckdb_columns : List String :=
  ["comment_id", "video_id", "category", "author", "text", "like_count",
   "reply_count", "published_at", "updated_at", "processed_at",
   "sentiment_label", "sentiment_score", "ingested_at"]

/-- An analytical row with the schema `init_duckdb` creates.  `text`
stores the cleaned text; `processed_at` gets `CURRENT_TIMESTAMP` on
insert; the sentiment columns are nullable. -/
structure Row where
  comment_id : String
  video_id : String
  category : Option String
  author : String
  text : String
  like_count : Nat
  reply_count : Nat
  published_at : Nat
  updated_at : Nat
  processed_at : Nat
  sentiment_label : Option String
  sentiment_score : Option Int
  ingested_at : Nat
deriving DecidableEq, Repr

/-- The `DO UPDATE SET` arm of the upsert: only `like_count`,
`reply_count` and `updated_at` are overwritten from the excluded record. -/
def upsertRow (r : Row) (c : Comment) : Row :=
  { r with like_count := c.like_count, reply_count := c.reply_count,
           updated_at := c.updated_at }

/-- The `INSERT` arm of the upsert; `now` stands for both
`datetime.utcnow()` (bound to `ingested_at`) and the
`DEFAULT CURRENT_TIMESTAMP` of `processed_at`. -/
def newRow (c : Comment) (now : Nat) : Row :=
  { comment_id := c.comment_id, video_id := c.video_id,
    category := c.category, author := c.author,
    text := clean_text (c.text.getD ""),
    like_count := c.like_count, reply_count := c.reply_count,
    published_at := c.published_at, updated_at := c.updated_at,
    processed_at := now, sentiment_label := none, sentiment_score := none,
    ingested_at := now }

/-- `insert_comment`'s SQL upsert on the `comments` table (primary key
`comment_id`): insert when the key is absent, otherwise run the
`DO UPDATE` arm on the conflicting row. -/
def insert_comment (table : List Row) (c : Comment) (now : Nat) : List Row :=
  if table.any (fun r => decide (r.comment_id = c.comment_id)) then
    table.map (fun r => if r.comment_id = c.comment_id then upsertRow r c else r)
  else table ++ [newRow c now]

/-! ## Consumer loop (`src/process_comments.py`, `consume_from_kafka`) -/

/-- One polled Kafka message: a decodable comment payload whose DuckDB
write succeeds or raises (the exception is caught inside
`insert_comment`), an undecodable payload, a partition-EOF event, or a
fatal Kafka error (re-raised as `KafkaException`). -/
inductive KMsg where
  | data (c : Comment) (writeOk : Bool)
  | malformed
  | partitionEof
  | kafkaError
deriving Repr

/-- Observable events of the consumer loop: a storage-write attempt for a
message, the DuckDB transaction commit (`conn.commit()`), and the Kafka
offset commit (`consumer.commit()`). -/
inductive Ev where
  | storageWrite (id : String) (ok : Bool)
  | dbCommit
  | offsetCommit
deriving DecidableEq, Repr

/-- The consumer loop over a finite poll sequence (`none` = poll timeout;
end of list = `running` turned false, reaching the `finally` block).
State: the pending `batch` (ids) and the DuckDB table.  Returns the event
trace and the final table.  `batchSize` is the local `batch_size`
(source value 100), `now` the insertion timestamp. -/
def consumeLoop (batchSize : Nat) (now : Nat) :
    List (Option KMsg) → List String → List Row → List Ev × List Row
  | [], batch, table =>
    (if batch.isEmpty then [] else [.dbCommit, .offsetCommit], table)
  | none :: rest, batch, table =>
    if batch.isEmpty then consumeLoop batchSize now rest batch table
    else
      let out := consumeLoop batchSize now rest [] table
      (.dbCommit :: .offsetCommit :: out.1, out.2)
  | some .malformed :: rest, batch, table => consumeLoop batchSize now rest batch table
  | some .partitionEof :: rest, batch, table => consumeLoop batchSize now rest batch table
  | some .kafkaError :: _, batch, table =>
    (if batch.isEmpty then [] else [.dbCommit, .offsetCommit], table)
  | some (.data c ok) :: rest, batch, table =>
    let table2 := if ok then insert_comment table c now else table
    let batch2 := batch ++ [c.comment_id]
    if batchSize ≤ batch2.length then
      let out := consumeLoop batchSize now rest [] table2
      (.storageWrite c.comment_id ok :: .dbCommit :: .offsetCommit :: out.1, out.2)
    else
      let out := consumeLoop batchSize now rest batch2 table2
      (.storageWrite c.comment_id ok :: out.1, out.2)

/-- `consume_from_kafka` instantiated with the source's `batch_size = 100`,
starting from an empty pending batch. -/
def consume_from_kafka (now : Nat) (input : List (Option KMsg)) (table : List Row) :
    List Ev × List Row :=
  consumeLoop 100 now input [] table

/-! ## Enrichment stage (`src/sentiment_analysis.py`) -/

/-- Columns referenced by the enrichment selection predicate
`WHERE sentiment_label IS NULL OR phrases IS NULL`. -/
def enrichment_where_columns : List String := ["sentiment_label", "phrases"]

/-- Columns assigned by the enrichment `UPDATE ... SET` statement. -/
def enrichment_update_set_columns : List String :=
  ["sentiment_label", "sentiment_score", "phrases"]

/-- An analytical row as the enrichment stage expects it, i.e. with the
`phrases` column (stored as a JSON string, never `NULL` once written:
`json.dumps` of a possibly-empty list). -/
structure ERow where
  comment_id : String
  text : String
  sentiment_label : Option String
  sentiment_score : Option Int
  phrases : Option String
deriving DecidableEq, Repr

/-- The selection predicate `sentiment_label IS NULL OR phrases IS NULL`. -/
def needsEnrichment (r : ERow) : Bool :=
  r.sentiment_label.isNone || r.phrases.isNone

/-- The rows the two enrichment queries select. -/
def selectUnprocessed (t : List ERow) : List ERow := t.filter needsEnrichment

/-- The per-row update computed in `main` and applied by `process_batch`:
`analyze_sentiment` always returns a label (fallback `'neutral'`) and
`json.dumps(phrases)` is always a string, so all three columns become
non-null.  `scorer`/`extractor` model the injected VADER/RAKE calls. -/
def enrichRow (scorer : String → String × Int) (extractor : String → String)
    (r : ERow) : ERow :=
  { r with sentiment_label := some (scorer r.text).1,
           sentiment_score := some (scorer r.text).2,
           phrases := some (extractor r.text) }

/-- Net table effect of one error-free enrichment run: every selected row
is updated via the batched `UPDATE ... WHERE comment_id = ?` (primary-key
unique, so keying by id equals updating the row in place); unselected rows
are untouched.  Also returns the processed-row count. -/
def enrichmentRun (scorer : String → String × Int) (extractor : String → String)
    (t : List ERow) : List ERow × Nat :=
  (t.map (fun r => if needsEnrichment r then enrichRow scorer extractor r else r),
   (selectUnprocessed t).length)

/-! ## Auxiliary predicates and sample data used in statements -/

/-- A page response that returned normally and reported a next-page
token. -/
def okWithNext : PageResult → Bool
  | .ok _ true => true
  | _ => false

/-- Whether a filesystem operation is an atomic replace. -/
def isReplaceOp : FsOp → Bool
  | .replace _ _ => true
  | _ => false

/-- Commit discipline of an event trace: every DuckDB commit is
immediately followed by the Kafka offset commit of the same batch, and no
offset commit occurs without the storage commit directly before it. -/
def commitsPaired : List Ev → Bool
  | [] => true
  | .storageWrite _ _ :: rest => commitsPaired rest
  | .dbCommit :: .offsetCommit :: rest => commitsPaired rest
  | _ => false

/-- Every storage write in the trace is eventually followed by a DuckDB
commit (its batch is made durable before the loop ends). -/
def writesFlushed : List Ev → Bool
  | [] => true
  | .storageWrite _ _ :: rest =>
    rest.any (fun e => decide (e = Ev.dbCommit)) && writesFlushed rest
  | _ :: rest => writesFlushed rest

/-- Sample comment record builder for concrete instances. -/
def mkComment (id : String) (t : Nat) : Comment :=
  { comment_id := id, video_id := "v", category := none, author := "a",
    text := some "hi", like_count := 0, reply_count := 0,
    published_at := t, updated_at := t }

/-- A concrete Kafka comment payload. -/
def cMsgA : Comment :=
  { comment_id := "c1", video_id := "v", category := none, author := "a",
    text := some "x", like_count := 1, reply_count := 0,
    published_at := 5, updated_at := 5 }

/-- A re-fetch of `cMsgA` with changed engagement counters and text. -/
def cMsgB : Comment :=
  { cMsgA with text := some "y  z", like_count := 2, updated_at := 6 }

/-- A fully enriched analytical row. -/
def eRowDone : ERow :=
  { comment_id := "d", text := "great robot", sentiment_label := some "positive",
    sentiment_score := some 1, phrases := some "[\x22great robot\x22]" }

/-- A not-yet-enriched analytical row. -/
def eRowTodo : ERow :=
  { comment_id := "u", text := "meh", sentiment_label := none,
    sentiment_score := none, phrases := none }

/-! ## Lemmas about the paging loop -/

theorem mem_pageNew_iff {existing : List String} {items : List Comment}
    {c : Comment} :
    c ∈ pageNew existing items ↔ c ∈ items ∧ c.comment_id ∉ existing := by
  simp [pageNew, List.mem_filter]

theorem fetchLoop_published_eq (existing : List String) (incr : Bool)
    (pages : List PageResult) : ∀ k : Nat,
    (fetchLoop existing incr pages k).published =
      (fetchLoop existing incr pages k).newComments := by
  induction pages with
  | nil => intro k; rfl
  | cons p rest ih =>
    intro k
    cases p with
    | err403 => rfl
    | errOther => rfl
    | ok items hasNext =>
      simp only [fetchLoop]
      split
      · rfl
      · split
        · rfl
        · simp [ih]

theorem fetchLoop_new_not_existing (existing : List String) (incr : Bool)
    (pages : List PageResult) : ∀ (k : Nat) (c : Comment),
    c ∈ (fetchLoop existing incr pages k).newComments →
      c.comment_id ∉ existing := by
  induction pages with
  | nil => intro k c hc; simp [fetchLoop] at hc
  | cons p rest ih =>
    intro k c hc
    cases p with
    | err403 => simp [fetchLoop] at hc
    | errOther => simp [fetchLoop] at hc
    | ok items hasNext =>
      simp only [fetchLoop] at hc
      split at hc
      · exact (mem_pageNew_iff.mp hc).2
      · split at hc
        · exact (mem_pageNew_iff.mp hc).2
        · simp only [List.mem_append] at hc
          rcases hc with hc | hc
          · exact (mem_pageNew_iff.mp hc).2
          · exact ih _ c hc

/-- C4: items whose ID is in the existing-ID set are never appended to the
new-comments result nor forwarded to the publisher; items whose ID is not
in the set are both appended and forwarded; across the whole paging loop
the published sequence equals the appended sequence and all its IDs are
outside the existing set. -/
theorem dedup_correctness :
    (∀ (existing : List String) (items : List Comment) (c : Comment),
        c ∈ items → c.comment_id ∈ existing →
        c ∉ pageNew existing items) ∧
    (∀ (existing : List String) (items : List Comment) (c : Comment),
        c ∈ items → c.comment_id ∉ existing →
        c ∈ pageNew existing items) ∧
    (∀ (existing : List String) (incr : Bool) (pages : List PageResult)
        (k : Nat),
        (fetchLoop existing incr pages k).published =
          (fetchLoop existing incr pages k).newComments) ∧
    (∀ (existing : List String) (incr : Bool) (pages : List PageResult)
        (k : Nat) (c : Comment),
        c ∈ (fetchLoop existing incr pages k).newComments →
          c.comment_id ∉ existing) := by
  refine ⟨?_, ?_, ?_, ?_⟩
  · intro existing items c hmem hid hfilter
    exact (mem_pageNew_iff.mp hfilter).2 hid
  · intro existing items c hmem hid
    exact mem_pageNew_iff.mpr ⟨hmem, hid⟩
  · exact fun existing incr pages k => fetchLoop_published_eq existing incr pages k
  · exact fun existing incr pages k c h =>
      fetchLoop_new_not_existing existing incr pages k c h

theorem dedup_correctness_witness :
    mkComment "c1" 1 ∉ pageNew ["c1"] [mkComment "c1" 1, mkComment "c3" 3] ∧
    mkComment "c3" 3 ∈ pageNew ["c1"] [mkComment "c1" 1, mkComment "c3" 3] :=
  ⟨dedup_correctness.1 ["c1"] [mkComment "c1" 1, mkComment "c3" 3]
      (mkComment "c1" 1) (by simp) (by simp [mkComment]),
   dedup_correctness.2.1 ["c1"] [mkComment "c1" 1, mkComment "c3" 3]
      (mkComment "c3" 3) (by simp) (by simp [mkComment])⟩

/-- C5 counterexample: a 403 during paging does not produce a failure
result; the fetch returns the success-tagged dict with the comments
accumulated so far (here none). -/
theorem quota_failure_returns_success :
    (fetch_video_comments ⟨MetaResult.found, [PageResult.err403]⟩ []).1 =
      FetchOutcome.success [] 0 := rfl

/-- C5 (amended): a 403 terminates the current video's paging loop (no
further pages are consumed and nothing beyond the accumulated comments is
returned), the fetch still returns a success-tagged result rather than a
distinct failure value, and outcomes of the other videos of the run are
computed independently. -/
theorem quota_failure_stops_only_this_video :
    (∀ (existing : List String) (incr : Bool) (rest : List PageResult)
        (k : Nat),
        fetchLoop existing incr (PageResult.err403 :: rest) k =
          ⟨[], [], 1, StopReason.http403⟩) ∧
    (∀ (api : VideoApi) (existing : List String),
        api.meta = MetaResult.found →
        (fetch_video_comments api existing).1 =
          FetchOutcome.success
            (fetchLoop existing (!existing.isEmpty) api.pages 0).newComments
            (fetchLoop existing (!existing.isEmpty) api.pages 0).newComments.length) ∧
    (∀ (vs ws : List (VideoApi × List String)),
        runVideos (vs ++ ws) = runVideos vs ++ runVideos ws) := by
  refine ⟨fun _ _ _ _ => rfl, ?_, fun vs ws => List.map_append _ vs ws⟩
  intro api existing h
  simp [fetch_video_comments, h]

theorem quota_failure_stops_only_this_video_witness :
    (fetch_video_comments
        ⟨MetaResult.found, [PageResult.ok [mkComment "c3" 3] true, PageResult.err403]⟩
        ["c1"]).1 =
      FetchOutcome.success
        (fetchLoop ["c1"] (!(["c1"] : List String).isEmpty)
          [PageResult.ok [mkComment "c3" 3] true, PageResult.err403] 0).newComments
        (fetchLoop ["c1"] (!(["c1"] : List String).isEmpty)
          [PageResult.ok [mkComment "c3" 3] true, PageResult.err403] 0).newComments.length :=
  quota_failure_stops_only_this_video.2.1
    ⟨MetaResult.found, [PageResult.ok [mkComment "c3" 3] true, PageResult.err403]⟩
    ["c1"] rfl

theorem fetchLoop_empty_page_stop (existing : List String)
    (items : List Comment) (b : Bool) (rest : List PageResult) (k : Nat)
    (hpn : pageNew existing items = []) (hk : 3 ≤ k + 1) :
    fetchLoop existing true (PageResult.ok items b :: rest) k =
      ⟨[], [], 1, StopReason.earlyStop⟩ := by
  simp [fetchLoop, hpn, hk]

theorem fetchLoop_empty_page_cont (existing : List String)
    (items : List Comment) (rest : List PageResult) (k : Nat)
    (hpn : pageNew existing items = []) (hk : k + 1 < 3) :
    fetchLoop existing true (PageResult.ok items true :: rest) k =
      ⟨(fetchLoop existing true rest (k + 1)).newComments,
       (fetchLoop existing true rest (k + 1)).published,
       (fetchLoop existing true rest (k + 1)).pagesConsumed + 1,
       (fetchLoop existing true rest (k + 1)).stop⟩ := by
  simp [fetchLoop, hpn, show ¬ 3 ≤ k + 1 by omega]

theorem fetchLoop_reset_page (existing : List String) (items : List Comment)
    (rest : List PageResult) (k : Nat) (hpn : pageNew existing items ≠ []) :
    fetchLoop existing true (PageResult.ok items true :: rest) k =
      ⟨pageNew existing items ++ (fetchLoop existing true rest 0).newComments,
       pageNew existing items ++ (fetchLoop existing true rest 0).published,
       (fetchLoop existing true rest 0).pagesConsumed + 1,
       (fetchLoop existing true rest 0).stop⟩ := by
  have hie : (pageNew existing items).isEmpty = false :=
    Bool.eq_false_iff.mpr (fun hb => hpn (List.isEmpty_iff.mp hb))
  simp [fetchLoop, hie]

theorem fetchLoop_first_run_step (existing : List String)
    (items : List Comment) (rest : List PageResult) (k : Nat) :
    fetchLoop existing false (PageResult.ok items true :: rest) k =
      ⟨pageNew existing items ++ (fetchLoop existing false rest k).newComments,
       pageNew existing items ++ (fetchLoop existing false rest k).published,
       (fetchLoop existing false rest k).pagesConsumed + 1,
       (fetchLoop existing false rest k).stop⟩ := by
  simp [fetchLoop]

theorem fetchLoop_first_run_no_early (existing : List String)
    (pages : List PageResult) : ∀ k : Nat,
    (fetchLoop existing false pages k).stop ≠ StopReason.earlyStop := by
  induction pages with
  | nil => intro k; simp [fetchLoop]
  | cons p rest ih =>
    intro k
    cases p with
    | err403 => simp [fetchLoop]
    | errOther => simp [fetchLoop]
    | ok items hasNext =>
      cases hasNext with
      | false => simp [fetchLoop]
      | true => rw [fetchLoop_first_run_step]; exact ih k

/-- C3: in incremental mode, with the consecutive-empty counter at its
loop-entry value, three consecutive pages yielding zero new comments halt
the loop (even though the first two report next-page tokens and whatever
the third reports, and whatever pages would follow); a page yielding at
least one new comment resets the counter to zero; in first-run mode every
page is walked while next-page tokens are reported and the early-stop exit
is unreachable; the mode flag is off exactly on an empty existing-ID
set. -/
theorem early_stop_bound :
    (∀ (existing : List String) (items1 items2 items3 : List Comment)
        (b3 : Bool) (rest : List PageResult),
        existing ≠ [] →
        pageNew existing items1 = [] →
        pageNew existing items2 = [] →
        pageNew existing items3 = [] →
        fetchLoop existing (!existing.isEmpty)
          (PageResult.ok items1 true :: PageResult.ok items2 true ::
            PageResult.ok items3 b3 :: rest) 0 =
          ⟨[], [], 3, StopReason.earlyStop⟩) ∧
    (∀ (existing : List String) (items : List Comment)
        (rest : List PageResult) (k : Nat),
        pageNew existing items ≠ [] →
        fetchLoop existing true (PageResult.ok items true :: rest) k =
          ⟨pageNew existing items ++ (fetchLoop existing true rest 0).newComments,
           pageNew existing items ++ (fetchLoop existing true rest 0).published,
           (fetchLoop existing true rest 0).pagesConsumed + 1,
           (fetchLoop existing true rest 0).stop⟩) ∧
    (∀ (existing : List String) (pages : List PageResult) (k : Nat),
        pages.all okWithNext = true →
        (fetchLoop existing false pages k).pagesConsumed = pages.length ∧
        (fetchLoop existing false pages k).stop = StopReason.exhausted) ∧
    (∀ (existing : List String) (pages : List PageResult) (k : Nat),
        (fetchLoop existing false pages k).stop ≠ StopReason.earlyStop) ∧
    (∀ existing : List String, existing = [] → (!existing.isEmpty) = false) := by
  refine ⟨?_, ?_, ?_, ?_, ?_⟩
  · intro existing items1 items2 items3 b3 rest hne h1 h2 h3
    have hie : (!existing.isEmpty) = true := by
      cases existing with
      | nil => exact absurd rfl hne
      | cons a l => rfl
    rw [hie]
    rw [fetchLoop_empty_page_cont existing items1 _ 0 h1 (by omega)]
    rw [fetchLoop_empty_page_cont existing items2 _ 1 h2 (by omega)]
    rw [fetchLoop_empty_page_stop existing items3 b3 rest 2 h3 (by omega)]
  · exact fun existing items rest k h => fetchLoop_reset_page existing items rest k h
  · intro existing pages
    induction pages with
    | nil => intro k _; exact ⟨rfl, rfl⟩
    | cons p rest ih =>
      intro k hall
      simp only [List.all_cons, Bool.and_eq_true] at hall
      obtain ⟨hp, hrest⟩ := hall
      cases p with
      | err403 => simp [okWithNext] at hp
      | errOther => simp [okWithNext] at hp
      | ok items hasNext =>
        cases hasNext with
        | false => simp [okWithNext] at hp
        | true =>
          rw [fetchLoop_first_run_step]
          exact ⟨by simp [(ih k hrest).1], by simp [(ih k hrest).2]⟩
  · exact fun existing pages k => fetchLoop_first_run_no_early existing pages k
  · intro existing h; subst h; rfl

theorem early_stop_bound_witness :
    fetchLoop ["c1"] (!(["c1"] : List String).isEmpty)
      (PageResult.ok [mkComment "c1" 1] true ::
        PageResult.ok [mkComment "c1" 1] true ::
        PageResult.ok [mkComment "c1" 1] true ::
        [PageResult.ok [mkComment "c9" 9] true]) 0 =
      ⟨[], [], 3, StopReason.earlyStop⟩ :=
  early_stop_bound.1 ["c1"] [mkComment "c1" 1] [mkComment "c1" 1]
    [mkComment "c1" 1] true [PageResult.ok [mkComment "c9" 9] true]
    (by simp) (by decide) (by decide) (by decide)

/-! ## Snapshot persistence claims -/

/-- C7 counterexample: when reading the existing snapshot fails (the
`except` branch of the merge), `save_comments` persists the new-comments
sequence as-is; with an unsorted input the persisted sequence is not
non-decreasing in `published_at`. -/
theorem fallback_path_persists_unsorted :
    (save_comments true "v" SnapState.bad
        [mkComment "b" 2, mkComment "a" 1] true).2 =
      [mkComment "b" 2, mkComment "a" 1] ∧
    ¬ List.Sorted pubLe [mkComment "b" 2, mkComment "a" 1] :=
  ⟨rfl, by decide⟩

/-- C7 (amended): the merge path and the cold-start paths persist a
sequence sorted ascending by `published_at`; the fallback path taken when
reading the existing snapshot fails persists the new-comments sequence
unchanged, without re-sorting. -/
theorem sort_invariant_paths :
    (∀ (vid : String) (existing new : List Comment),
        List.Sorted pubLe
          (save_comments true vid (SnapState.good existing) new true).2) ∧
    (∀ (vid : String) (snap : SnapState) (new : List Comment),
        List.Sorted pubLe (save_comments true vid snap new false).2) ∧
    (∀ (vid : String) (new : List Comment),
        List.Sorted pubLe (save_comments true vid SnapState.absent new true).2) ∧
    (∀ (vid : String) (new : List Comment),
        (save_comments true vid SnapState.bad new true).2 = new) := by
  refine ⟨?_, ?_, ?_, fun vid new => rfl⟩
  · intro vid existing new
    simp only [save_comments, Bool.not_true, Bool.false_eq_true, if_false,
      sortByPub]
    exact List.sorted_insertionSort pubLe _
  · intro vid snap new
    cases snap <;>
      simp only [save_comments, Bool.not_true, Bool.false_eq_true, if_false,
        sortByPub] <;>
      exact List.sorted_insertionSort pubLe _
  · intro vid new
    simp only [save_comments, Bool.not_true, Bool.false_eq_true, if_false,
      sortByPub]
    exact List.sorted_insertionSort pubLe _

/-- C8 counterexample: a persist of the snapshot performs a single direct
write to the final snapshot path and contains no replace operation, so the
temp-location-then-replace protocol the claim describes is absent. -/
theorem snapshot_write_not_atomic :
    (save_comments true "v" SnapState.absent [] true).1 =
      [FsOp.write (snapshotFile "v") []] ∧
    (save_comments true "v" SnapState.absent [] true).1.any isReplaceOp = false :=
  ⟨rfl, rfl⟩

/-- C8 (amended): every persist of the corpus snapshot is one in-place
write of the full content to the snapshot file itself; no temporary
location and no replace step are involved. -/
theorem snapshot_write_in_place :
    ∀ (vid : String) (snap : SnapState) (new : List Comment) (flag : Bool),
      (save_comments true vid snap new flag).1 =
        [FsOp.write (snapshotFile vid) (save_comments true vid snap new flag).2] := by
  intro vid snap new flag
  cases snap <;> cases flag <;> rfl

/-! ## Enrichment stage claims -/

/-- C6: the enrichment queries select/update by the predicate
`sentiment_label IS NULL OR phrases IS NULL` and reference the `phrases`
column, but the table the consumer creates has no such column (the
schema slip); on a table that does carry the column, a fully enriched row
is never selected and never rewritten, and a second run immediately after
an error-free run selects nothing, processes zero rows and leaves the
table unchanged. -/
theorem enrichment_phrases_schema_bug :
    ("phrases" ∈ enrichment_where_columns ∧
     "phrases" ∈ enrichment_update_set_columns ∧
     "phrases" ∉ init_duckdb_columns) ∧
    (∀ (t : List ERow) (r : ERow),
        r.sentiment_label.isSome = true → r.phrases.isSome = true →
        r ∉ selectUnprocessed t) ∧
    (∀ (scorer : String → String × Int) (extractor : String → String)
        (pre post : List ERow) (r : ERow), needsEnrichment r = false →
        (enrichmentRun scorer extractor (pre ++ r :: post)).1 =
          (enrichmentRun scorer extractor pre).1 ++
            r :: (enrichmentRun scorer extractor post).1) ∧
    (∀ (scorer : String → String × Int) (extractor : String → String)
        (t : List ERow),
        selectUnprocessed (enrichmentRun scorer extractor t).1 = [] ∧
        enrichmentRun scorer extractor (enrichmentRun scorer extractor t).1 =
          ((enrichmentRun scorer extractor t).1, 0)) := by
  have hdone : ∀ (scorer : String → String × Int) (extractor : String → String)
      (t : List ERow) (r : ERow), r ∈ (enrichmentRun scorer extractor t).1 →
      needsEnrichment r = false := by
    intro scorer extractor t r hr
    simp only [enrichmentRun, List.mem_map] at hr
    obtain ⟨r0, _, hr0⟩ := hr
    by_cases h : needsEnrichment r0 = true
    · rw [if_pos h] at hr0
      subst hr0
      simp [needsEnrichment, enrichRow]
    · rw [if_neg h] at hr0
      subst hr0
      exact Bool.eq_false_iff.mpr h
  refine ⟨by decide, ?_, ?_, ?_⟩
  · intro t r h1 h2 hmem
    have h3 := (List.mem_filter.mp hmem).2
    simp only [needsEnrichment, Bool.or_eq_true, Option.isNone_iff_eq_none] at h3
    rcases h3 with h | h
    · rw [h] at h1; simp at h1
    · rw [h] at h2; simp at h2
  · intro scorer extractor pre post r hr
    simp [enrichmentRun, hr]
  · intro scorer extractor t
    have hsel : selectUnprocessed (enrichmentRun scorer extractor t).1 = [] := by
      rw [selectUnprocessed, List.filter_eq_nil_iff]
      intro r hr
      simp [hdone scorer extractor t r hr]
    refine ⟨hsel, ?_⟩
    have hmap : (enrichmentRun scorer extractor
        (enrichmentRun scorer extractor t).1).1 =
        (enrichmentRun scorer extractor t).1 := by
      simp only [enrichmentRun]
      calc ((enrichmentRun scorer extractor t).1).map
            (fun r => if needsEnrichment r then enrichRow scorer extractor r else r) =
          ((enrichmentRun scorer extractor t).1).map id := by
            apply List.map_congr_left
            intro r hr
            simp [hdone scorer extractor t r hr]
        _ = (enrichmentRun scorer extractor t).1 := List.map_id _
    have hcnt : (enrichmentRun scorer extractor
        (enrichmentRun scorer extractor t).1).2 = 0 := by
      have hdef : (enrichmentRun scorer extractor
          ((enrichmentRun scorer extractor t).1)).2 =
          (selectUnprocessed ((enrichmentRun scorer extractor t).1)).length := rfl
      rw [hdef, hsel]
      rfl
    exact Prod.ext hmap hcnt

theorem enrichment_phrases_schema_bug_witness :
    eRowDone ∉ selectUnprocessed [eRowDone, eRowTodo] :=
  enrichment_phrases_schema_bug.2.1 [eRowDone, eRowTodo] eRowDone rfl rfl

/-! ## Upsert claims -/

theorem upsertRow_id (r : Row) (c : Comment) :
    (upsertRow r c).comment_id = r.comment_id := rfl

theorem upsertRow_idem (r : Row) (c : Comment) :
    upsertRow (upsertRow r c) c = upsertRow r c := rfl

theorem insert_comment_not_mem (table : List Row) (c : Comment) (now : Nat)
    (h : ∀ r ∈ table, r.comment_id ≠ c.comment_id) :
    insert_comment table c now = table ++ [newRow c now] := by
  rw [insert_comment, if_neg]
  simp only [List.any_eq_true, decide_eq_true_eq, not_exists, not_and]
  exact h

theorem insert_comment_mem (table : List Row) (c : Comment) (now : Nat)
    (r0 : Row) (h0 : r0 ∈ table) (hid : r0.comment_id = c.comment_id) :
    insert_comment table c now =
      table.map (fun r =>
        if r.comment_id = c.comment_id then upsertRow r c else r) := by
  rw [insert_comment, if_pos]
  simp only [List.any_eq_true, decide_eq_true_eq]
  exact ⟨r0, h0, hid⟩

theorem insert_comment_twice (table : List Row) (c : Comment) (now now2 : Nat) :
    insert_comment (insert_comment table c now) c now2 =
      insert_comment table c now := by
  by_cases h : table.any (fun r => decide (r.comment_id = c.comment_id)) = true
  · simp only [List.any_eq_true, decide_eq_true_eq] at h
    obtain ⟨r0, h0, hid⟩ := h
    have hmem2 : (if r0.comment_id = c.comment_id then upsertRow r0 c else r0) ∈
        table.map (fun r =>
          if r.comment_id = c.comment_id then upsertRow r c else r) :=
      List.mem_map_of_mem
        (fun r => if r.comment_id = c.comment_id then upsertRow r c else r) h0
    have hid2 : (if r0.comment_id = c.comment_id then
        upsertRow r0 c else r0).comment_id = c.comment_id := by
      rw [if_pos hid]; exact hid
    rw [insert_comment_mem table c now r0 h0 hid]
    rw [insert_comment_mem _ c now2 _ hmem2 hid2]
    rw [List.map_map]
    apply List.map_congr_left
    intro r _
    by_cases hr : r.comment_id = c.comment_id
    · simp only [Function.comp_apply, if_pos hr, upsertRow_id,
        if_pos hr, upsertRow_idem]
    · simp only [Function.comp_apply, if_neg hr]
  · have h2 : ∀ r ∈ table, r.comment_id ≠ c.comment_id := by
      simp only [List.any_eq_true, decide_eq_true_eq, not_exists, not_and] at h
      exact h
    rw [insert_comment_not_mem table c now h2]
    rw [insert_comment_mem (table ++ [newRow c now]) c now2 (newRow c now)
      (by simp) rfl]
    rw [List.map_append]
    have hleft : table.map (fun r =>
        if r.comment_id = c.comment_id then upsertRow r c else r) = table := by
      calc table.map (fun r =>
            if r.comment_id = c.comment_id then upsertRow r c else r) =
          table.map id := by
            apply List.map_congr_left
            intro r hrm
            rw [if_neg (h2 r hrm)]
            rfl
        _ = table := List.map_id _
    rw [hleft]
    have hnew : List.map (fun r =>
        if r.comment_id = c.comment_id then upsertRow r c else r)
        [newRow c now] = [newRow c now] := by
      have hcond : (newRow c now).comment_id = c.comment_id := rfl
      simp only [List.map_cons, List.map_nil]
      rw [if_pos hcond]
      exact congrArg (fun z => [z]) rfl
    rw [hnew]

theorem countP_id_of_pairwise (c : Comment) :
    ∀ table : List Row,
      table.Pairwise (fun r s => r.comment_id ≠ s.comment_id) →
      ∀ r0 ∈ table, r0.comment_id = c.comment_id →
      table.countP (fun r => decide (r.comment_id = c.comment_id)) = 1 := by
  intro table
  induction table with
  | nil => intro _ r0 h0; simp at h0
  | cons r rest ih =>
    intro hu r0 h0 hid
    rw [List.pairwise_cons] at hu
    rcases List.mem_cons.mp h0 with h0 | h0
    · subst h0
      rw [List.countP_cons]
      have hzero : rest.countP
          (fun r => decide (r.comment_id = c.comment_id)) = 0 := by
        rw [List.countP_eq_zero]
        intro s hs
        simp only [decide_eq_true_eq]
        intro hsid
        exact hu.1 s hs (hid.trans hsid.symm)
      simp [hzero, hid]
    · have hne : r.comment_id ≠ c.comment_id := by
        intro hr
        exact hu.1 r0 h0 (hr.trans hid.symm)
      rw [List.countP_cons]
      simp only [decide_eq_true_eq, hne, if_false]
      exact ih hu.2 r0 h0 hid

/-- C1 counterexample: re-applying a record with the same `comment_id` but
new text leaves the stored `text` (the cleaned form of the FIRST record)
and the bookkeeping `ingested_at` untouched, although the claim says the
upsert refreshes `cleaned_text` and the bookkeeping timestamp on
conflict. -/
theorem upsert_cleaned_text_not_refreshed :
    (insert_comment (insert_comment [] cMsgA 10) cMsgB 20).map Row.text =
      ["x"] ∧
    clean_text (cMsgB.text.getD "") = "y z" ∧
    ("x" : String) ≠ "y z" ∧
    (insert_comment (insert_comment [] cMsgA 10) cMsgB 20).map
      Row.ingested_at = [10] := by
  refine ⟨by decide, by decide, by decide, by decide⟩

/-- C1 (amended): the upsert inserts a new row when the `comment_id` is
absent; on conflict it updates only `like_count`, `reply_count` and
`updated_at`, leaving `text` (the cleaned form), both bookkeeping
timestamps, the identity fields and the enrichment fields
(`sentiment_label`, `sentiment_score`) exactly as they were — in
particular never overwriting computed enrichment values with nulls;
applying the same record twice equals applying it once, and on a table
with unique keys exactly one row carries the record's `comment_id`. -/
theorem upsert_mutable_fields_only :
    (∀ (table : List Row) (c : Comment) (now : Nat),
        (∀ r ∈ table, r.comment_id ≠ c.comment_id) →
        insert_comment table c now = table ++ [newRow c now]) ∧
    (∀ (table : List Row) (c : Comment) (now : Nat) (r0 : Row),
        r0 ∈ table → r0.comment_id = c.comment_id →
        insert_comment table c now =
          table.map (fun r =>
            if r.comment_id = c.comment_id then upsertRow r c else r)) ∧
    (∀ (r : Row) (c : Comment),
        (upsertRow r c).like_count = c.like_count ∧
        (upsertRow r c).reply_count = c.reply_count ∧
        (upsertRow r c).updated_at = c.updated_at ∧
        (upsertRow r c).text = r.text ∧
        (upsertRow r c).ingested_at = r.ingested_at ∧
        (upsertRow r c).processed_at = r.processed_at ∧
        (upsertRow r c).sentiment_label = r.sentiment_label ∧
        (upsertRow r c).sentiment_score = r.sentiment_score ∧
        (upsertRow r c).comment_id = r.comment_id ∧
        (upsertRow r c).video_id = r.video_id ∧
        (upsertRow r c).category = r.category ∧
        (upsertRow r c).author = r.author ∧
        (upsertRow r c).published_at = r.published_at) ∧
    (∀ (table : List Row) (c : Comment) (now now2 : Nat),
        insert_comment (insert_comment table c now) c now2 =
          insert_comment table c now) ∧
    (∀ (table : List Row) (c : Comment) (now : Nat),
        table.Pairwise (fun r s => r.comment_id ≠ s.comment_id) →
        (insert_comment table c now).countP
          (fun r => decide (r.comment_id = c.comment_id)) = 1) := by
  refine ⟨insert_comment_not_mem, insert_comment_mem, ?_, insert_comment_twice, ?_⟩
  · intro r c
    refine ⟨rfl, rfl, rfl, rfl, rfl, rfl, rfl, rfl, rfl, rfl, rfl, rfl, rfl⟩
  · intro table c now hu
    by_cases h : table.any (fun r => decide (r.comment_id = c.comment_id)) = true
    · simp only [List.any_eq_true, decide_eq_true_eq] at h
      obtain ⟨r0, h0, hid⟩ := h
      rw [insert_comment_mem table c now r0 h0 hid]
      have hcnt : (table.map (fun r =>
          if r.comment_id = c.comment_id then upsertRow r c else r)).countP
          (fun r => decide (r.comment_id = c.comment_id)) =
          table.countP (fun r => decide (r.comment_id = c.comment_id)) := by
        rw [List.countP_map]
        apply List.countP_congr
        intro r _
        by_cases hr : r.comment_id = c.comment_id
        · simp [Function.comp, hr, upsertRow_id]
        · simp [Function.comp, hr]
      rw [hcnt]
      exact countP_id_of_pairwise c table hu r0 h0 hid
    · have h2 : ∀ r ∈ table, r.comment_id ≠ c.comment_id := by
        simp only [List.any_eq_true, decide_eq_true_eq, not_exists, not_and] at h
        exact h
      rw [insert_comment_not_mem table c now h2]
      rw [List.countP_append]
      have hzero : table.countP
          (fun r => decide (r.comment_id = c.comment_id)) = 0 := by
        rw [List.countP_eq_zero]
        intro s hs
        simp only [decide_eq_true_eq]
        exact h2 s hs
      simp [hzero, newRow]

theorem upsert_mutable_fields_only_witness :
    insert_comment [] cMsgA 10 = [] ++ [newRow cMsgA 10] ∧
    (insert_comment [] cMsgA 10).countP
      (fun r => decide (r.comment_id = cMsgA.comment_id)) = 1 :=
  ⟨upsert_mutable_fields_only.1 [] cMsgA 10 (by simp),
   upsert_mutable_fields_only.2.2.2.2 [] cMsgA 10 (by simp)⟩

/-! ## Consumer loop claims -/

theorem consumeLoop_nonempty_batch_commits (batchSize now : Nat) :
    ∀ (input : List (Option KMsg)) (batch : List String) (table : List Row),
      batch.isEmpty = false →
      ((consumeLoop batchSize now input batch table).1.any
        (fun e => decide (e = Ev.dbCommit))) = true := by
  intro input
  induction input with
  | nil => intro batch table h; simp [consumeLoop, h]
  | cons m rest ih =>
    intro batch table h
    match m with
    | none => simp [consumeLoop, h]
    | some .malformed => simp only [consumeLoop]; exact ih batch table h
    | some .partitionEof => simp only [consumeLoop]; exact ih batch table h
    | some .kafkaError => simp [consumeLoop, h]
    | some (.data c ok) =>
      simp only [consumeLoop]
      by_cases hb : batchSize ≤ (batch ++ [c.comment_id]).length
      · rw [if_pos hb]; simp
      · rw [if_neg hb]
        have h2 : (batch ++ [c.comment_id]).isEmpty = false := by simp
        simp [ih _ _ h2]

theorem consumeLoop_commits_paired (batchSize now : Nat) :
    ∀ (input : List (Option KMsg)) (batch : List String) (table : List Row),
      commitsPaired (consumeLoop batchSize now input batch table).1 = true := by
  intro input
  induction input with
  | nil =>
    intro batch table
    by_cases h : batch.isEmpty <;> simp [consumeLoop, h, commitsPaired]
  | cons m rest ih =>
    intro batch table
    match m with
    | none =>
      by_cases h : batch.isEmpty
      · simp only [consumeLoop, h, if_pos]
        exact ih batch table
      · simp only [consumeLoop]
        rw [if_neg h]
        simp only [commitsPaired]
        exact ih [] table
    | some .malformed => simp only [consumeLoop]; exact ih batch table
    | some .partitionEof => simp only [consumeLoop]; exact ih batch table
    | some .kafkaError =>
      by_cases h : batch.isEmpty <;> simp [consumeLoop, h, commitsPaired]
    | some (.data c ok) =>
      simp only [consumeLoop]
      by_cases hb : batchSize ≤ (batch ++ [c.comment_id]).length
      · rw [if_pos hb]
        simp only [commitsPaired]
        exact ih [] _
      · rw [if_neg hb]
        simp only [commitsPaired]
        exact ih (batch ++ [c.comment_id]) _

theorem consumeLoop_writes_flushed (batchSize now : Nat) :
    ∀ (input : List (Option KMsg)) (batch : List String) (table : List Row),
      writesFlushed (consumeLoop batchSize now input batch table).1 = true := by
  intro input
  induction input with
  | nil =>
    intro batch table
    by_cases h : batch.isEmpty <;> simp [consumeLoop, h, writesFlushed]
  | cons m rest ih =>
    intro batch table
    match m with
    | none =>
      by_cases h : batch.isEmpty
      · simp only [consumeLoop, h, if_pos]
        exact ih batch table
      · simp only [consumeLoop]
        rw [if_neg h]
        simp only [writesFlushed]
        exact ih [] table
    | some .malformed => simp only [consumeLoop]; exact ih batch table
    | some .partitionEof => simp only [consumeLoop]; exact ih batch table
    | some .kafkaError =>
      by_cases h : batch.isEmpty <;> simp [consumeLoop, h, writesFlushed]
    | some (.data c ok) =>
      simp only [consumeLoop]
      by_cases hb : batchSize ≤ (batch ++ [c.comment_id]).length
      · rw [if_pos hb]
        simp only [writesFlushed]
        simp [ih [] _]
      · rw [if_neg hb]
        have h2 : (batch ++ [c.comment_id]).isEmpty = false := by simp
        simp only [writesFlushed]
        rw [Bool.and_eq_true]
        exact ⟨consumeLoop_nonempty_batch_commits batchSize now rest _ _ h2,
          ih (batch ++ [c.comment_id]) _⟩

/-- C2: in every execution of the consumer loop — batch-size threshold,
poll-timeout flush, fatal-error exit and final shutdown alike — commit
events come strictly as a DuckDB commit immediately followed by the Kafka
offset commit of the same batch, and every storage write is followed by a
DuckDB commit before the loop ends, so no offset is committed before the
corresponding writes are durable. -/
theorem commit_ordering :
    (∀ (batchSize now : Nat) (input : List (Option KMsg))
        (batch : List String) (table : List Row),
        commitsPaired (consumeLoop batchSize now input batch table).1 = true) ∧
    (∀ (batchSize now : Nat) (input : List (Option KMsg))
        (batch : List String) (table : List Row),
        writesFlushed (consumeLoop batchSize now input batch table).1 = true) ∧
    (∀ (now : Nat) (input : List (Option KMsg)) (table : List Row),
        commitsPaired (consume_from_kafka now input table).1 = true ∧
        writesFlushed (consume_from_kafka now input table).1 = true) :=
  ⟨fun batchSize now input batch table =>
      consumeLoop_commits_paired batchSize now input batch table,
   fun batchSize now input batch table =>
      consumeLoop_writes_flushed batchSize now input batch table,
   fun now input table =>
      ⟨consumeLoop_commits_paired 100 now input [] table,
       consumeLoop_writes_flushed 100 now input [] table⟩⟩

/-- C9 counterexample: a message whose storage write fails is still
batched; the batch is committed and its Kafka offset is committed, with no
rollback and with the message absent from the table — the offset of an
unstored message IS committed. -/
theorem storage_failure_offset_committed :
    consume_from_kafka 0 [some (KMsg.data cMsgA false)] [] =
      ([Ev.storageWrite "c1" false, Ev.dbCommit, Ev.offsetCommit], []) := by
  decide

/-- C9 (amended): a storage-write failure for a message is caught and
logged inside `insert_comment`; the consumer loop's control flow is
unchanged — the message still joins the batch, the table is simply left
without the row, no rollback happens, and the batch's commits (storage
commit then offset commit) proceed exactly as on success. -/
theorem storage_failure_swallowed :
    ∀ (batchSize now : Nat) (c : Comment) (rest : List (Option KMsg))
      (batch : List String) (table : List Row),
      ((batch ++ [c.comment_id]).length < batchSize →
        consumeLoop batchSize now (some (KMsg.data c false) :: rest) batch table =
          (Ev.storageWrite c.comment_id false ::
            (consumeLoop batchSize now rest (batch ++ [c.comment_id]) table).1,
           (consumeLoop batchSize now rest (batch ++ [c.comment_id]) table).2)) ∧
      (batchSize ≤ (batch ++ [c.comment_id]).length →
        consumeLoop batchSize now (some (KMsg.data c false) :: rest) batch table =
          (Ev.storageWrite c.comment_id false :: Ev.dbCommit :: Ev.offsetCommit ::
            (consumeLoop batchSize now rest [] table).1,
           (consumeLoop batchSize now rest [] table).2)) := by
  intro batchSize now c rest batch table
  constructor
  · intro h
    simp only [consumeLoop]
    rw [if_neg (Nat.not_le.mpr h)]
    simp
  · intro h
    simp only [consumeLoop]
    rw [if_pos h]
    simp

theorem storage_failure_swallowed_witness :
    consumeLoop 100 0 [some (KMsg.data cMsgA false)] [] [] =
      (Ev.storageWrite cMsgA.comment_id false ::
        (consumeLoop 100 0 [] ([] ++ [cMsgA.comment_id]) []).1,
       (consumeLoop 100 0 [] ([] ++ [cMsgA.comment_id]) []).2) :=
  (storage_failure_swallowed 100 0 cMsgA [] [] []).1 (by decide)

/-! ## Text-cleaning claims -/

theorem rev_word_ok (acc : List Char) (h : acc.isEmpty = false)
    (hacc : ∀ ch ∈ acc, isSpaceChar ch = false) :
    acc.reverse ≠ [] ∧ ∀ ch ∈ acc.reverse, isSpaceChar ch = false := by
  constructor
  · intro hrev
    have hnil : acc = [] := by simpa using congrArg List.reverse hrev
    rw [hnil] at h
    simp at h
  · intro ch hch
    exact hacc ch (List.mem_reverse.mp hch)

theorem splitWsAux_words_ok :
    ∀ (l acc : List Char), (∀ ch ∈ acc, isSpaceChar ch = false) →
      ∀ w ∈ splitWsAux l acc, w ≠ [] ∧ ∀ ch ∈ w, isSpaceChar ch = false := by
  intro l
  induction l with
  | nil =>
    intro acc hacc w hw
    simp only [splitWsAux] at hw
    by_cases h : acc.isEmpty
    · rw [if_pos h] at hw
      simp at hw
    · rw [if_neg h] at hw
      simp only [List.mem_singleton] at hw
      subst hw
      exact rev_word_ok acc (Bool.eq_false_iff.mpr h) hacc
  | cons ch rest ih =>
    intro acc hacc w hw
    simp only [splitWsAux] at hw
    by_cases hs : isSpaceChar ch = true
    · rw [if_pos hs] at hw
      by_cases h : acc.isEmpty
      · rw [if_pos h] at hw
        exact ih [] (by simp) w hw
      · rw [if_neg h] at hw
        rcases List.mem_cons.mp hw with hw | hw
        · subst hw
          exact rev_word_ok acc (Bool.eq_false_iff.mpr h) hacc
        · exact ih [] (by simp) w hw
    · rw [if_neg hs] at hw
      refine ih (ch :: acc) ?_ w hw
      intro c hc
      rcases List.mem_cons.mp hc with rfl | hc
      · exact Bool.eq_false_iff.mpr hs
      · exact hacc c hc

theorem splitWsAux_dropWhile (l : List Char) :
    splitWsAux (l.dropWhile isSpaceChar) [] = splitWsAux l [] := by
  induction l with
  | nil => rfl
  | cons c rest ih =>
    rw [List.dropWhile_cons]
    by_cases h : isSpaceChar c = true
    · rw [if_pos h, ih]
      simp [splitWsAux, h]
    · rw [if_neg h]

theorem splitWsAux_all_space (sp : List Char)
    (hsp : ∀ ch ∈ sp, isSpaceChar ch = true) :
    ∀ acc : List Char, splitWsAux sp acc = splitWsAux [] acc := by
  induction sp with
  | nil => intro acc; rfl
  | cons c rest ih =>
    intro acc
    have hc : isSpaceChar c = true := hsp c (by simp)
    have hrest : ∀ ch ∈ rest, isSpaceChar ch = true :=
      fun ch h => hsp ch (List.mem_cons_of_mem _ h)
    simp only [splitWsAux]
    rw [if_pos hc]
    by_cases h : acc.isEmpty
    · rw [if_pos h, ih hrest [], if_pos h]
      rfl
    · rw [if_neg h, ih hrest [], if_neg h]
      rfl

theorem splitWsAux_append_space (sp : List Char)
    (hsp : ∀ ch ∈ sp, isSpaceChar ch = true) :
    ∀ (l acc : List Char), splitWsAux (l ++ sp) acc = splitWsAux l acc := by
  intro l
  induction l with
  | nil =>
    intro acc
    rw [List.nil_append]
    exact splitWsAux_all_space sp hsp acc
  | cons c rest ih =>
    intro acc
    simp only [List.cons_append, splitWsAux, List.append_eq]
    by_cases hc : isSpaceChar c = true
    · rw [if_pos hc, if_pos hc]
      by_cases h : acc.isEmpty
      · rw [if_pos h, if_pos h, ih []]
      · rw [if_neg h, if_neg h, ih []]
    · rw [if_neg hc, if_neg hc, ih (c :: acc)]

theorem splitWs_pyStrip (l : List Char) : splitWs (pyStrip l) = splitWs l := by
  have hdecomp : l.dropWhile isSpaceChar =
      pyStrip l ++ ((l.dropWhile isSpaceChar).reverse.takeWhile isSpaceChar).reverse := by
    conv_lhs => rw [← List.reverse_reverse (l.dropWhile isSpaceChar),
      ← List.takeWhile_append_dropWhile (p := isSpaceChar)
        (l := (l.dropWhile isSpaceChar).reverse)]
    rw [List.reverse_append]
    rfl
  have hsp : ∀ ch ∈ ((l.dropWhile isSpaceChar).reverse.takeWhile isSpaceChar).reverse,
      isSpaceChar ch = true := by
    intro ch hch
    exact List.mem_takeWhile_imp (List.mem_reverse.mp hch)
  calc splitWs (pyStrip l) =
      splitWsAux (pyStrip l ++
        ((l.dropWhile isSpaceChar).reverse.takeWhile isSpaceChar).reverse) [] :=
        (splitWsAux_append_space _ hsp _ []).symm
    _ = splitWsAux (l.dropWhile isSpaceChar) [] := by rw [← hdecomp]
    _ = splitWs l := splitWsAux_dropWhile l

theorem splitWsAux_word (w : List Char)
    (hw : ∀ ch ∈ w, isSpaceChar ch = false) :
    ∀ (tail acc : List Char),
      splitWsAux (w ++ tail) acc = splitWsAux tail (w.reverse ++ acc) := by
  induction w with
  | nil => intro tail acc; simp
  | cons c w2 ih =>
    intro tail acc
    have hc : isSpaceChar c = false := hw c (by simp)
    have hw2 : ∀ ch ∈ w2, isSpaceChar ch = false :=
      fun ch h => hw ch (List.mem_cons_of_mem _ h)
    simp only [List.cons_append, splitWsAux, List.append_eq]
    rw [if_neg (by simp [hc])]
    rw [ih hw2 tail (c :: acc)]
    congr 1
    simp

theorem splitWs_intercalate :
    ∀ ws : List (List Char),
      (∀ w ∈ ws, w ≠ [] ∧ ∀ ch ∈ w, isSpaceChar ch = false) →
      splitWs (List.intercalate [' '] ws) = ws := by
  intro ws
  induction ws with
  | nil => intro _; simp [List.intercalate]; rfl
  | cons w ws2 ih =>
    intro hok
    match ws2 with
    | [] =>
      have hone : List.intercalate [' '] [w] = w := by simp [List.intercalate]
      rw [hone]
      have hw := hok w (by simp)
      have hne : (w.reverse).isEmpty = false := by
        cases hv : w.reverse with
        | nil =>
          exact absurd (by simpa using congrArg List.reverse hv) hw.1
        | cons a l => rfl
      rw [splitWs, show w = w ++ ([] : List Char) by simp,
        splitWsAux_word w hw.2 [] []]
      simp only [splitWsAux, List.append_nil]
      rw [if_neg (by simp [hne])]
      simp
    | w2 :: ws3 =>
      have hstep : List.intercalate [' '] (w :: w2 :: ws3) =
          w ++ ' ' :: List.intercalate [' '] (w2 :: ws3) := by
        simp [List.intercalate, List.intersperse]
      have hw := hok w (by simp)
      have hne : (w.reverse).isEmpty = false := by
        cases hv : w.reverse with
        | nil =>
          exact absurd (by simpa using congrArg List.reverse hv) hw.1
        | cons a l => rfl
      rw [hstep, splitWs, splitWsAux_word w hw.2]
      simp only [List.append_nil, splitWsAux]
      rw [if_pos (show isSpaceChar ' ' = true by decide)]
      rw [if_neg (by simp [hne])]
      rw [List.reverse_reverse]
      have hrec := ih (fun v hv => hok v (List.mem_cons_of_mem _ hv))
      rw [splitWs] at hrec
      rw [hrec]

theorem clean_text_idem (s : String) :
    clean_text (clean_text s) = clean_text s := by
  by_cases h : s = ""
  · rw [h]
    rfl
  · by_cases h2 : clean_text s = ""
    · rw [h2]
      rfl
    · rw [clean_text, if_neg h2]
      have hdata : (clean_text s).data =
          List.intercalate [' '] (splitWs (pyStrip s.data)) := by
        rw [clean_text, if_neg h]
      have hok : ∀ w ∈ splitWs (pyStrip s.data),
          w ≠ [] ∧ ∀ ch ∈ w, isSpaceChar ch = false :=
        fun w hw => splitWsAux_words_ok (pyStrip s.data) [] (by simp) w hw
      rw [splitWs_pyStrip, hdata, splitWs_intercalate _ hok, ← hdata]

/-- C10: `clean_text` maps empty (and absent, via the `.get('text', '')`
default) input to the empty string; every output is an intercalation of
nonempty whitespace-free tokens by single spaces (no leading/trailing
whitespace, exactly one space between tokens); it is idempotent; the
consumer stores exactly the cleaned form in the `text` column on insert,
and every table whose `text` column holds cleaned forms still does after
any upsert. -/
theorem clean_text_spec :
    (clean_text "" = "" ∧
     ∀ o : Option String, o = none → clean_text (o.getD "") = "") ∧
    (∀ s : String, ∃ ws : List (List Char),
        (∀ w ∈ ws, w ≠ [] ∧ ∀ ch ∈ w, isSpaceChar ch = false) ∧
        (clean_text s).data = List.intercalate [' '] ws) ∧
    (∀ s : String, clean_text (clean_text s) = clean_text s) ∧
    (∀ (c : Comment) (now : Nat),
        (newRow c now).text = clean_text (c.text.getD "")) ∧
    (∀ (table : List Row) (c : Comment) (now : Nat),
        (∀ r ∈ table, clean_text r.text = r.text) →
        ∀ r ∈ insert_comment table c now, clean_text r.text = r.text) := by
  refine ⟨⟨rfl, ?_⟩, ?_, clean_text_idem, fun c now => rfl, ?_⟩
  · intro o ho
    rw [ho]
    rfl
  · intro s
    by_cases h : s = ""
    · exact ⟨[], by simp, by simp [h, clean_text, List.intercalate]⟩
    · refine ⟨splitWs (pyStrip s.data),
        fun w hw => splitWsAux_words_ok (pyStrip s.data) [] (by simp) w hw, ?_⟩
      rw [clean_text, if_neg h]
  · intro table c now hinv r hr
    rw [insert_comment] at hr
    by_cases h : table.any (fun r => decide (r.comment_id = c.comment_id)) = true
    · rw [if_pos h] at hr
      obtain ⟨r0, h0, hr0⟩ := List.mem_map.mp hr
      by_cases hid : r0.comment_id = c.comment_id
      · rw [if_pos hid] at hr0
        subst hr0
        exact hinv r0 h0
      · rw [if_neg hid] at hr0
        subst hr0
        exact hinv r0 h0
    · rw [if_neg h] at hr
      rcases List.mem_append.mp hr with hr | hr
      · exact hinv r hr
      · simp only [List.mem_singleton] at hr
        subst hr
        exact clean_text_idem (c.text.getD "")

theorem clean_text_spec_witness :
    clean_text ((none : Option String).getD "") = "" ∧
    clean_text (newRow cMsgB 7).text = (newRow cMsgB 7).text :=
  ⟨clean_text_spec.1.2 none rfl,
   clean_text_spec.2.2.2.2 [] cMsgB 7 (by simp) (newRow cMsgB 7)
     (by simp [insert_comment])⟩

end HumanoidSA
